import Mathlib

/-!
Verification of the `optparse` command-line parsing library
(`src/optparse/OptionParserBase.h`, `src/optparse/DefaultFormatter.h`,
`src/optparse/OptionParserException.h`) against its specification.

The C++ sources are shallowly embedded.  Machine integers follow the LP64
model used on the library's reference platforms: `short` is 16 bits,
`int` 32 bits, and `long`, `long long` 64 bits (so `strtol` saturates at
plus/minus 2^63 and `strtoul` at 2^64 - 1).  Strings are Lean `String`s;
the C termination character is modelled by the end of the list of
characters, so the `*end != '\0'` test of the sources becomes a test
that the unconsumed suffix is empty.  C++ exceptions are modelled with
`Except`.
-/

namespace Optparse

/-! ### Label classification

`OptionParserBase::isLabel` from `src/optparse/OptionParserBase.h`:
returns false on the empty string, false when the first character is not
a dash, true when the length is one, and otherwise tests that the second
character is neither a dot nor an ASCII digit. -/

def isLabel (s : String) : Bool :=
  match s.data with
  | [] => false
  | c0 :: rest =>
    if c0 = '-' then
      match rest with
      | [] => true
      | c1 :: _ => c1 != '.' && !(decide ('0' ≤ c1) && decide (c1 ≤ '9'))
    else false

/-! ### Model of the C numeric-conversion primitives

`strtol` / `strtoul` (and on LP64 equally `strtoll` / `strtoull`): skip
leading white space, accept one optional sign, then a run of decimal
digits.  When no digit is consumed, no conversion is performed: the
result is 0 and `end` is reset to the start of the input.  `strtol`
saturates at `LONG_MIN` / `LONG_MAX` setting `errno` to `ERANGE`;
`strtoul` saturates at `ULONG_MAX` setting `ERANGE`, and negates an
in-range magnitude modulo 2^64 when the sign was a dash. -/

def isSpaceC (c : Char) : Bool :=
  c = ' ' || c = '\t' || c = '\n' || c = '\x0b' || c = '\x0c' || c = '\r'

def takeDigits : List Char → List Char × List Char
  | [] => ([], [])
  | c :: cs =>
    if c.isDigit then
      let p := takeDigits cs
      (c :: p.1, p.2)
    else ([], c :: cs)

def digitsVal (ds : List Char) : Nat :=
  ds.foldl (fun a c => a * 10 + (c.toNat - '0'.toNat)) 0

def LONG_MAX : Int := 9223372036854775807

def LONG_MIN : Int := -9223372036854775808

def ULONG_MAX : Nat := 18446744073709551615

/-- Result of a `strtol` call: the returned value, whether `errno` was
set to `ERANGE`, and the suffix of the input starting at `*end`. -/
structure StrtolRes where
  value : Int
  rangeErr : Bool
  rest : List Char
deriving DecidableEq

/-- Result of a `strtoul` call. -/
structure StrtoulRes where
  value : Nat
  rangeErr : Bool
  rest : List Char
deriving DecidableEq

/-- The optional single sign accepted after the white space: returns
whether the value is to be negated and the characters after the sign. -/
def signSplit (t : List Char) : Bool × List Char :=
  match t with
  | '-' :: r => (true, r)
  | '+' :: r => (false, r)
  | _ => (false, t)

def strtolM (s : List Char) : StrtolRes :=
  let signed := signSplit (s.dropWhile isSpaceC)
  let d := takeDigits signed.2
  match d.1 with
  | [] => ⟨0, false, s⟩
  | _ =>
    let n : Int := (digitsVal d.1 : Int)
    let v : Int := if signed.1 then -n else n
    if v > LONG_MAX then ⟨LONG_MAX, true, d.2⟩
    else if v < LONG_MIN then ⟨LONG_MIN, true, d.2⟩
    else ⟨v, false, d.2⟩

def strtoulM (s : List Char) : StrtoulRes :=
  let signed := signSplit (s.dropWhile isSpaceC)
  let d := takeDigits signed.2
  match d.1 with
  | [] => ⟨0, false, s⟩
  | _ =>
    let n := digitsVal d.1
    if n > ULONG_MAX then ⟨ULONG_MAX, true, d.2⟩
    else if signed.1 then ⟨(2 ^ 64 - n) % 2 ^ 64, false, d.2⟩
    else ⟨n, false, d.2⟩

/-! ### Default formatters

Specializations of `DefaultFormatter` for `Ch = char` from
`src/optparse/DefaultFormatter.h`.  A formatting failure throws
`BadValue`; its two-argument constructor `BadValue(message, value)`
stores an empty label, the three-argument one stores the label too. -/

/-- Data carried by a thrown `BadValue< Ch >` exception. -/
structure BadValueE where
  msg : String
  label : String
  value : String
deriving DecidableEq

deriving instance DecidableEq for Except

/-- Two-argument `BadValue` constructor: empty label. -/
def badv (m v : String) : BadValueE := ⟨m, "", v⟩

def INT_MAX : Int := 2147483647

def INT_MIN : Int := -2147483648

def SHRT_MAX : Int := 32767

def SHRT_MIN : Int := -32768

def UINT_MAX : Nat := 4294967295

def USHRT_MAX : Nat := 65535

/-- The `DefaultFormatter< int, char >` call operator. -/
def intFormatter (s : String) : Except BadValueE Int :=
  if s.isEmpty then .error (badv "invalid number" s)
  else
    let r := strtolM s.data
    if r.rest ≠ [] then .error (badv "invalid number" s)
    else if r.rangeErr then .error (badv "out of range" s)
    else if r.value > INT_MAX then .error (badv "out of range" s)
    else if r.value < INT_MIN then .error (badv "out of range" s)
    else .ok r.value

/-- The `DefaultFormatter< short, char >` call operator.  Note: the
source neither clears `errno` nor tests `ERANGE` here; only the `short`
bounds are checked after the wide parse. -/
def shortFormatter (s : String) : Except BadValueE Int :=
  if s.isEmpty then .error (badv "invalid integer" s)
  else
    let r := strtolM s.data
    if r.rest ≠ [] then .error (badv "invalid integer" s)
    else if r.value > SHRT_MAX then .error (badv "out of range" s)
    else if r.value < SHRT_MIN then .error (badv "out of range" s)
    else .ok r.value

/-- The `DefaultFormatter< long, char >` call operator. -/
def longFormatter (s : String) : Except BadValueE Int :=
  if s.isEmpty then .error (badv "invalid integer" s)
  else
    let r := strtolM s.data
    if r.rest ≠ [] then .error (badv "invalid integer" s)
    else if r.rangeErr then .error (badv "out of range" s)
    else .ok r.value

/-- The `DefaultFormatter< long long, char >` call operator (`strtoll`
coincides with `strtol` on LP64). -/
def longLongFormatter (s : String) : Except BadValueE Int :=
  if s.isEmpty then .error (badv "invalid integer" s)
  else
    let r := strtolM s.data
    if r.rest ≠ [] then .error (badv "invalid integer" s)
    else if r.rangeErr then .error (badv "out of range" s)
    else .ok r.value

/-- The `DefaultFormatter< unsigned int, char >` call operator.  Note:
no explicit test of a leading dash here; negative input is only caught
when the wrapped wide value exceeds `UINT_MAX`. -/
def uintFormatter (s : String) : Except BadValueE Nat :=
  if s.isEmpty then .error (badv "invalid integer" s)
  else
    let r := strtoulM s.data
    if r.rest ≠ [] then .error (badv "invalid integer" s)
    else if r.rangeErr then .error (badv "out of range" s)
    else if r.value > UINT_MAX then .error (badv "out of range" s)
    else .ok r.value

/-- The `DefaultFormatter< unsigned short, char >` call operator.  Like
the `short` one it does not consult `errno`, and like the
`unsigned int` one it has no explicit leading-dash test. -/
def ushortFormatter (s : String) : Except BadValueE Nat :=
  if s.isEmpty then .error (badv "invalid integer" s)
  else
    let r := strtoulM s.data
    if r.rest ≠ [] then .error (badv "invalid integer" s)
    else if r.value > USHRT_MAX then .error (badv "out of range" s)
    else .ok r.value

/-- The `DefaultFormatter< unsigned long, char >` call operator, with
the explicit `valueStr[0] == '-'` rejection. -/
def ulongFormatter (s : String) : Except BadValueE Nat :=
  if s.isEmpty then .error (badv "invalid integer" s)
  else
    let r := strtoulM s.data
    if r.rest ≠ [] then .error (badv "invalid integer" s)
    else if r.rangeErr then .error (badv "out of range" s)
    else if s.data.head? = some '-' then .error (badv "out of range" s)
    else .ok r.value

/-- The `DefaultFormatter< unsigned long long, char >` call operator
(`strtoull` coincides with `strtoul` on LP64); it carries the same
explicit `valueStr[0] == '-'` rejection as the `unsigned long` one. -/
def ulongLongFormatter (s : String) : Except BadValueE Nat :=
  if s.isEmpty then .error (badv "invalid integer" s)
  else
    let r := strtoulM s.data
    if r.rest ≠ [] then .error (badv "invalid integer" s)
    else if r.rangeErr then .error (badv "out of range" s)
    else if s.data.head? = some '-' then .error (badv "out of range" s)
    else .ok r.value

/-- The `DefaultFormatter< unsigned int, wchar_t >` call operator: this
one tests the leading dash, but before the wide parse and with the
message "invalid integer". -/
def uintWFormatter (s : String) : Except BadValueE Nat :=
  if s.isEmpty then .error (badv "invalid integer" s)
  else if s.data.head? = some '-' then .error (badv "invalid integer" s)
  else
    let r := strtoulM s.data
    if r.rest ≠ [] then .error (badv "invalid integer" s)
    else if r.rangeErr then .error (badv "out of range" s)
    else if r.value > UINT_MAX then .error (badv "out of range" s)
    else .ok r.value

/-- The `DefaultFormatter< std::string, char >` call operator. -/
def stringFormatter (s : String) : Except BadValueE String := .ok s

/-! ### The parser: errors, option and argument definitions, registry

From `src/optparse/OptionParserBase.h` and
`src/optparse/OptionParserException.h`.  `Opt`, the caller's options
container, becomes a type parameter `Cfg`.  A virtual `Option` is a
record of the members the parser calls through the vtable: label,
description, `needsValue()`, `getValueName()`, the no-value call
operator `(Opt&)` and the with-value call operator
`(Opt&, const String&)`; the concrete subclasses become constructor
functions filling those fields exactly as the subclass bodies do. -/

/-- The exceptions `parse` can raise. -/
inductive ParseError where
  | tooFewArguments
  | tooManyArguments
  | valueNeeded (label : String)
  | unknownOption (label : String)
  | badValue (msg : String) (label : String) (value : String)
deriving DecidableEq

/-- A (virtual) option definition. -/
structure OptionD (Cfg : Type) where
  label : String
  description : String
  needsVal : Bool
  valueName : String
  appNo : Cfg → Except ParseError Cfg
  appVal : Cfg → String → Except ParseError Cfg

/-- A (virtual) positional-argument definition. -/
structure ArgumentD (Cfg : Type) where
  name : String
  description : String
  appVal : Cfg → String → Except ParseError Cfg

/-- `MemberOption` (a `ValueOption`): formats the value and assigns it
into a field; a `BadValue` from the formatter is rethrown with the label
and the value; applying without a value throws `ValueNeeded`. -/
def memberOption {Cfg α : Type} (label name description : String)
    (format : String → Except BadValueE α) (assign : Cfg → α → Cfg) :
    OptionD Cfg where
  label := label
  description := description
  needsVal := true
  valueName := name
  appNo := fun _ => .error (.valueNeeded label)
  appVal := fun options value =>
    match format value with
    | .ok x => .ok (assign options x)
    | .error ex => .error (.badValue ex.msg label value)

/-- `ConstMemberOption` (a `NoValueOption`): assigns a fixed constant
into a field (`substConst` captures the field and the constant);
applying with a value throws the two-argument
`BadValue("no value needed", label)`, which stores the label in the
value slot and leaves the label slot empty. -/
def constMemberOption {Cfg : Type} (label description : String)
    (substConst : Cfg → Cfg) : OptionD Cfg where
  label := label
  description := description
  needsVal := false
  valueName := ""
  appNo := fun options => .ok (substConst options)
  appVal := fun _ _ => .error (.badValue "no value needed" "" label)

/-- `FunctionOption` (a `ValueOption`): formats the value and passes it
to a caller function together with the container. -/
def functionOption {Cfg α : Type} (label name description : String)
    (format : String → Except BadValueE α) (f : Cfg → α → Cfg) :
    OptionD Cfg where
  label := label
  description := description
  needsVal := true
  valueName := name
  appNo := fun _ => .error (.valueNeeded label)
  appVal := fun options value =>
    match format value with
    | .ok x => .ok (f options x)
    | .error ex => .error (.badValue ex.msg label value)

/-- `ConstFunctionOption` (a `NoValueOption`): calls a caller function
taking only the container. -/
def constFunctionOption {Cfg : Type} (label description : String)
    (f : Cfg → Cfg) : OptionD Cfg where
  label := label
  description := description
  needsVal := false
  valueName := ""
  appNo := fun options => .ok (f options)
  appVal := fun _ _ => .error (.badValue "no value needed" "" label)

/-- `MemberArgument` / `FunctionArgument`: formats the token and feeds
it to the slot or callback; a `BadValue` from the formatter is rethrown
with the argument name and the value. -/
def memberArgument {Cfg α : Type} (name description : String)
    (format : String → Except BadValueE α) (assign : Cfg → α → Cfg) :
    ArgumentD Cfg where
  name := name
  description := description
  appVal := fun options value =>
    match format value with
    | .ok x => .ok (assign options x)
    | .error ex => .error (.badValue ex.msg name value)

/-- The parser state: program description, program name, the
insertion-ordered option list, the label-keyed option map whose entries
also record the index into the option list (`IndexedOptionPtr`), and the
positional-argument list.  `std::map` is modelled as an association
list with unique keys. -/
structure Parser (Cfg : Type) where
  description : String
  programName : String
  optionList : List (OptionD Cfg)
  optionMap : List (String × Nat × OptionD Cfg)
  arguments : List (ArgumentD Cfg)

/-- The `OptionParserBase` constructor. -/
def mkParser {Cfg : Type} (description : String) : Parser Cfg :=
  ⟨description, "", [], [], []⟩

/-- Lookup in the option map (`optionMap.find(label)`). -/
def lookupOpt {Cfg : Type} :
    List (String × Nat × OptionD Cfg) → String → Option (Nat × OptionD Cfg)
  | [], _ => none
  | (l, e) :: rest, label => if l = label then some e else lookupOpt rest label

/-- Store an entry under a key, replacing an existing entry with that
key (the `insert`-then-assign dance of `addOption`). -/
def storeOpt {Cfg : Type} :
    List (String × Nat × OptionD Cfg) → String → Nat → OptionD Cfg →
    List (String × Nat × OptionD Cfg)
  | [], label, i, o => [(label, i, o)]
  | (l, e) :: rest, label, i, o =>
    if l = label then (l, i, o) :: rest
    else (l, e) :: storeOpt rest label i o

/-- The protected `addOption(label, pOption)`: verifies the label, then
either replaces the option stored under the label — keeping its index
and overwriting the same slot of the option list — or appends it with
index `optionList.size()`. -/
def addOption {Cfg : Type} (p : Parser Cfg) (label : String)
    (pOption : OptionD Cfg) : Except String (Parser Cfg) :=
  if isLabel label then
    match lookupOpt p.optionMap label with
    | some (i, _) =>
      .ok { p with optionMap := storeOpt p.optionMap label i pOption,
                   optionList := p.optionList.set i pOption }
    | none =>
      .ok { p with
              optionMap :=
                storeOpt p.optionMap label p.optionList.length pOption,
              optionList := p.optionList ++ [pOption] }
  else .error "option label must start with dash (-)"

/-- `appendArgument`: always appended at the end, no validation. -/
def appendArgument {Cfg : Type} (p : Parser Cfg) (pArg : ArgumentD Cfg) :
    Parser Cfg :=
  { p with arguments := p.arguments ++ [pArg] }

/-- `findOption`: the option pointer stored in the map, if any. -/
def findOption {Cfg : Type} (p : Parser Cfg) (label : String) :
    Option (OptionD Cfg) :=
  (lookupOpt p.optionMap label).map (fun e => e.2)

/-- `getOption` / `getOptionCount` introspection. -/
def getOption {Cfg : Type} (p : Parser Cfg) (i : Nat) : Option (OptionD Cfg) :=
  p.optionList.get? i

def getOptionCount {Cfg : Type} (p : Parser Cfg) : Nat :=
  p.optionList.length

/-- The `while (argI < argc)` loop of `parse`: walks the remaining
tokens with the running container and the index `nextPos` of the next
positional argument, and returns the final container and `nextPos`.
A label-shaped token is resolved in the registry (unknown label throws
`UnknownOption`); an option needing a value consumes the following
token if any (`ValueNeeded` otherwise); a non-label token feeds the
next positional argument (`TooManyArguments` when all are filled). -/
def scanLoop {Cfg : Type} (p : Parser Cfg) :
    Cfg → List String → Nat → Except ParseError (Cfg × Nat)
  | options, [], nextPos => .ok (options, nextPos)
  | options, tok :: rest, nextPos =>
    if isLabel tok then
      match findOption p tok with
      | some pOption =>
        if pOption.needsVal then
          match rest with
          | value :: rest2 =>
            match pOption.appVal options value with
            | .ok options2 => scanLoop p options2 rest2 nextPos
            | .error e => .error e
          | [] => .error (.valueNeeded tok)
        else
          match pOption.appNo options with
          | .ok options2 => scanLoop p options2 rest nextPos
          | .error e => .error e
      | none => .error (.unknownOption tok)
    else
      if nextPos = p.arguments.length then .error .tooManyArguments
      else
        match p.arguments.get? nextPos with
        | some posArg =>
          match posArg.appVal options tok with
          | .ok options2 => scanLoop p options2 rest (nextPos + 1)
          | .error e => .error e
        | none => .error .tooManyArguments

/-- `parse(argc, argv)`: fails with `TooFewArguments` when `argc <= 0`
before touching the program name; otherwise sets the program name to
`argv[0]`, runs the scan loop over `argv[1..argc)`, and finally fails
with `TooFewArguments` unless every positional argument was
substituted.  The returned pair is the parser (whose `programName` the
call may have updated) and the result or the raised exception. -/
def parse {Cfg : Type} (p : Parser Cfg) (options0 : Cfg) (argc : Int)
    (argv : List String) : Parser Cfg × Except ParseError Cfg :=
  if argc ≤ 0 then (p, .error .tooFewArguments)
  else
    let p2 := { p with programName := (argv.take argc.toNat).headD "" }
    match scanLoop p2 options0 ((argv.take argc.toNat).drop 1) 0 with
    | .ok (options, nextPos) =>
      if nextPos ≠ p2.arguments.length then (p2, .error .tooFewArguments)
      else (p2, .ok options)
    | .error e => (p2, .error e)


/-! ### Well-formedness of registered definitions

Every option the C++ registry can hold is one of the four concrete
subclasses: its with-value application only ever throws `BadValue`, a
no-value option's no-value application cannot fail, and a value option's
no-value application throws `ValueNeeded` with its label.  Every
argument's application only ever throws `BadValue`.  The map entries of
a parser built by the registration calls satisfy these, and the map
index of each entry addresses the same option in the option list. -/

def WFopt {Cfg : Type} (o : OptionD Cfg) : Prop :=
  (∀ options v e, o.appVal options v = .error e →
    ∃ m l w, e = .badValue m l w) ∧
  (o.needsVal = false → ∀ options, ∃ options2, o.appNo options = .ok options2) ∧
  (o.needsVal = true → ∀ options, o.appNo options = .error (.valueNeeded o.label))

def WFarg {Cfg : Type} (a : ArgumentD Cfg) : Prop :=
  ∀ options v e, a.appVal options v = .error e → ∃ m l w, e = .badValue m l w

def WFparser {Cfg : Type} (p : Parser Cfg) : Prop :=
  (∀ x ∈ p.optionMap, WFopt x.2.2) ∧ (∀ a ∈ p.arguments, WFarg a)

/-- Consistency of the option map with the option list: each stored
index is in range and addresses the stored option.  `addOption`
preserves it. -/
def MapConsistent {Cfg : Type} (p : Parser Cfg) : Prop :=
  ∀ x ∈ p.optionMap,
    x.2.1 < p.optionList.length ∧ p.optionList.get? x.2.1 = some x.2.2

/-! ### Ghost transformation used to express unreachability

Replacing the with-value application of every option that does not need
a value — the member inherited from `NoValueOption` that throws
`BadValue("no value needed", label)` — by an arbitrary function.  The
parse result not depending on this replacement means `parse` never
invokes a no-value option's with-value application. -/

def stripNoValueAppVal {Cfg : Type}
    (f : Cfg → String → Except ParseError Cfg) (o : OptionD Cfg) :
    OptionD Cfg :=
  if o.needsVal then o else { o with appVal := f }

def mapNoValueAppVal {Cfg : Type}
    (f : Cfg → String → Except ParseError Cfg) (p : Parser Cfg) :
    Parser Cfg :=
  { p with
      optionList := p.optionList.map (stripNoValueAppVal f),
      optionMap :=
        p.optionMap.map (fun x => (x.1, x.2.1, stripNoValueAppVal f x.2.2)) }

/-! ### A concrete sample registry (used to instantiate the claims)

The configuration record and registry of the end-to-end scenarios:
`-n` takes an `int` written to field `n`, `-v` assigns the constant
`true` to field `verbose`, and one positional `int` argument `val`. -/

structure SampleCfg where
  n : Int
  verbose : Bool
  val : Int
deriving DecidableEq

def sampleCfg0 : SampleCfg := ⟨0, false, 0⟩

def sampleOptN : OptionD SampleCfg :=
  memberOption "-n" "N" "number option" intFormatter
    (fun options x => { options with n := x })

def sampleOptN2 : OptionD SampleCfg :=
  memberOption "-n" "M" "replacement option" shortFormatter
    (fun options x => { options with n := x })

def sampleOptV : OptionD SampleCfg :=
  constMemberOption "-v" "verbose flag" (fun options => { options with verbose := true })

def sampleOptFlag : OptionD SampleCfg :=
  constMemberOption "--flag" "a flag" (fun options => options)

def sampleArgVal : ArgumentD SampleCfg :=
  memberArgument "val" "value argument" intFormatter
    (fun options x => { options with val := x })

/-- The registry with `-n`, `-v`, `--flag` and the positional `val`
(what the registration calls starting from `mkParser` build). -/
def sampleP : Parser SampleCfg where
  description := "sample program"
  programName := ""
  optionList := [sampleOptN, sampleOptV, sampleOptFlag]
  optionMap :=
    [("-n", 0, sampleOptN), ("-v", 1, sampleOptV), ("--flag", 2, sampleOptFlag)]
  arguments := [sampleArgVal]

/-! ### Bounds of the wide parses -/

theorem strtolM_value_le (s : List Char) : (strtolM s).value ≤ LONG_MAX := by
  simp only [strtolM]
  generalize signSplit (s.dropWhile isSpaceC) = sg
  generalize takeDigits sg.2 = d
  repeat' split
  all_goals dsimp only
  all_goals simp only [LONG_MAX, LONG_MIN] at *
  all_goals omega

theorem strtolM_le_value (s : List Char) : LONG_MIN ≤ (strtolM s).value := by
  simp only [strtolM]
  generalize signSplit (s.dropWhile isSpaceC) = sg
  generalize takeDigits sg.2 = d
  repeat' split
  all_goals dsimp only
  all_goals simp only [LONG_MAX, LONG_MIN] at *
  all_goals omega

/-! ### Claims about the label rule and the converters -/

/-- C1: for every string `s`, `isLabel s` holds iff `s` is non-empty,
its first character is a dash, and either `s` has length 1 or its second
character is neither an ASCII digit nor a dot; in particular on the five
quoted examples. -/
theorem isLabel_spec :
    (∀ s : String, isLabel s = true ↔
      (s.data ≠ [] ∧ s.data.head? = some '-' ∧
        (s.data.length = 1 ∨
          ∃ c, s.data.tail.head? = some c ∧ ¬('0' ≤ c ∧ c ≤ '9') ∧ c ≠ '.'))) ∧
    isLabel "-" = true ∧ isLabel "-5" = false ∧ isLabel "--5" = true ∧
    isLabel "" = false ∧ isLabel "x" = false := by
  refine ⟨?_, by decide, by decide, by decide, by decide, by decide⟩
  intro s
  rcases s with ⟨data⟩
  rcases data with _ | ⟨c0, _ | ⟨c1, rest⟩⟩
  · simp [isLabel]
  · by_cases h : c0 = '-' <;> simp [isLabel, h]
  · by_cases h : c0 = '-'
    · by_cases h0 : '0' ≤ c1 <;> by_cases h9 : c1 ≤ '9' <;>
        by_cases hdot : c1 = '.' <;>
        simp [isLabel, h, h0, h9, hdot] <;>
        first
          | exact lt_of_not_le h9
          | exact lt_of_not_le h0
    · simp [isLabel, h]

/-- C2 counterexample: the `int` converter rejects the empty string with
the message "invalid number", not "invalid integer". -/
theorem intFormatter_empty_not_invalid_integer :
    intFormatter "" = .error ⟨"invalid number", "", ""⟩ ∧
    intFormatter "" ≠ .error ⟨"invalid integer", "", ""⟩ := by decide

/-- C2 amended: every signed converter rejects the empty string and
trailing garbage — with message "invalid integer" except the `int` one,
which says "invalid number" — and rejects values beyond its width's
bounds with "out of range" (the `int` converter checks both the wide
overflow signal and `int`'s bounds, the `short` one only `short`'s
bounds, the `long`/`long long` ones only the overflow signal); every
accepted value lies within the width's range. -/
theorem signed_formatters_amended :
    (intFormatter "" = .error (badv "invalid number" "") ∧
     shortFormatter "" = .error (badv "invalid integer" "") ∧
     longFormatter "" = .error (badv "invalid integer" "") ∧
     longLongFormatter "" = .error (badv "invalid integer" "")) ∧
    (intFormatter "12x" = .error (badv "invalid number" "12x") ∧
     shortFormatter "12x" = .error (badv "invalid integer" "12x") ∧
     longFormatter "12x" = .error (badv "invalid integer" "12x") ∧
     longLongFormatter "12x" = .error (badv "invalid integer" "12x")) ∧
    (shortFormatter "32767" = .ok 32767 ∧
     shortFormatter "-32768" = .ok (-32768) ∧
     shortFormatter "32768" = .error (badv "out of range" "32768") ∧
     shortFormatter "-32769" = .error (badv "out of range" "-32769") ∧
     intFormatter "2147483647" = .ok 2147483647 ∧
     intFormatter "-2147483648" = .ok (-2147483648) ∧
     intFormatter "2147483648" = .error (badv "out of range" "2147483648") ∧
     intFormatter "-2147483649" = .error (badv "out of range" "-2147483649") ∧
     longFormatter "9223372036854775807" = .ok 9223372036854775807 ∧
     longFormatter "-9223372036854775808" = .ok (-9223372036854775808) ∧
     longFormatter "9223372036854775808" =
       .error (badv "out of range" "9223372036854775808") ∧
     longLongFormatter "-9223372036854775809" =
       .error (badv "out of range" "-9223372036854775809")) ∧
    (∀ s v, intFormatter s = .ok v → INT_MIN ≤ v ∧ v ≤ INT_MAX) ∧
    (∀ s v, shortFormatter s = .ok v → SHRT_MIN ≤ v ∧ v ≤ SHRT_MAX) ∧
    (∀ s v, longFormatter s = .ok v → LONG_MIN ≤ v ∧ v ≤ LONG_MAX) := by
  refine ⟨by decide, by decide, by decide, ?_, ?_, ?_⟩
  · intro s v h
    simp only [intFormatter] at h
    split at h
    · exact absurd h (by simp)
    · split at h
      · exact absurd h (by simp)
      · split at h
        · exact absurd h (by simp)
        · split at h
          · exact absurd h (by simp)
          · split at h
            · exact absurd h (by simp)
            · simp only [Except.ok.injEq] at h
              omega
  · intro s v h
    simp only [shortFormatter] at h
    split at h
    · exact absurd h (by simp)
    · split at h
      · exact absurd h (by simp)
      · split at h
        · exact absurd h (by simp)
        · split at h
          · exact absurd h (by simp)
          · simp only [Except.ok.injEq] at h
            omega
  · intro s v h
    simp only [longFormatter] at h
    split at h
    · exact absurd h (by simp)
    · split at h
      · exact absurd h (by simp)
      · split at h
        · exact absurd h (by simp)
        · simp only [Except.ok.injEq] at h
          have h1 := strtolM_value_le s.data
          have h2 := strtolM_le_value s.data
          omega

/-- C2 witness: the universal bound conjuncts applied at a concrete
accepted input. -/
theorem signed_formatters_amended_witness :
    INT_MIN ≤ (12 : Int) ∧ (12 : Int) ≤ INT_MAX :=
  signed_formatters_amended.2.2.2.1 "12" 12 (by decide)

/-- C3 counterexample: the `unsigned int` converter accepts "-0" (the
wide parse wraps it to 0), so not every dash-leading input fails. -/
theorem uintFormatter_neg_zero_ok :
    uintFormatter "-0" = .ok 0 ∧ ushortFormatter "-0" = .ok 0 := by decide

/-- C3 amended: only the `unsigned long` and `unsigned long long`
converters carry the explicit leading-dash check, and for them every
dash-leading input fails ("out of range" when the numeral parses
cleanly, "invalid integer" when malformed); the `unsigned short` and
`unsigned int` converters have no such check — dash-leading inputs are
rejected only when the wrapped wide value exceeds the narrow maximum,
and "-0" is accepted as 0; the wide-character `unsigned int` converter
checks the dash explicitly but with message "invalid integer". -/
theorem unsigned_formatters_neg_amended :
    (∀ s : String, s.data.head? = some '-' → ∃ e, ulongFormatter s = .error e) ∧
    (∀ s : String, s.data.head? = some '-' →
      ∃ e, ulongLongFormatter s = .error e) ∧
    ulongFormatter "-1" = .error (badv "out of range" "-1") ∧
    ulongLongFormatter "-1" = .error (badv "out of range" "-1") ∧
    ulongFormatter "-abc" = .error (badv "invalid integer" "-abc") ∧
    uintFormatter "-1" = .error (badv "out of range" "-1") ∧
    uintFormatter "-0" = .ok 0 ∧
    ushortFormatter "-0" = .ok 0 ∧
    uintWFormatter "-1" = .error (badv "invalid integer" "-1") := by
  refine ⟨?_, ?_, by decide, by decide, by decide, by decide, by decide,
          by decide, by decide⟩
  · intro s h
    simp only [ulongFormatter]
    repeat' split
    all_goals exact ⟨_, rfl⟩
  · intro s h
    simp only [ulongLongFormatter]
    repeat' split
    all_goals exact ⟨_, rfl⟩

/-- C3 witness: the universal conjunct applied at a concrete
dash-leading input. -/
theorem unsigned_formatters_neg_amended_witness :
    ∃ e, ulongFormatter "-7" = .error e :=
  unsigned_formatters_neg_amended.1 "-7" (by decide)

/-! ### Registry lemmas -/

theorem lookupOpt_storeOpt_self {Cfg : Type}
    (m : List (String × Nat × OptionD Cfg)) (label : String) (i : Nat)
    (o : OptionD Cfg) : lookupOpt (storeOpt m label i o) label = some (i, o) := by
  induction m with
  | nil => simp [storeOpt, lookupOpt]
  | cons x rest ih =>
    obtain ⟨l, e⟩ := x
    by_cases h : l = label
    · simp [storeOpt, lookupOpt, h]
    · simp [storeOpt, lookupOpt, h, ih]

theorem lookupOpt_mem {Cfg : Type}
    (m : List (String × Nat × OptionD Cfg)) (label : String)
    (e : Nat × OptionD Cfg) (h : lookupOpt m label = some e) : (label, e) ∈ m := by
  induction m with
  | nil => simp [lookupOpt] at h
  | cons x rest ih =>
    obtain ⟨l, e2⟩ := x
    by_cases hl : l = label
    · subst hl
      simp [lookupOpt] at h
      subst h
      exact List.mem_cons_self _ _
    · simp [lookupOpt, hl] at h
      exact List.mem_cons_of_mem _ (ih h)

theorem memberOption_wf {Cfg α : Type} (label name description : String)
    (format : String → Except BadValueE α) (assign : Cfg → α → Cfg) :
    WFopt (memberOption label name description format assign) := by
  refine ⟨?_, by simp [memberOption], fun _ options => rfl⟩
  intro options v e h
  simp only [memberOption] at h
  cases hf : format v with
  | ok x => rw [hf] at h; exact absurd h (by simp)
  | error ex => rw [hf] at h; simp at h; exact ⟨_, _, _, h.symm⟩

theorem constMemberOption_wf {Cfg : Type} (label description : String)
    (substConst : Cfg → Cfg) :
    WFopt (constMemberOption label description substConst) := by
  refine ⟨?_, fun _ options => ⟨_, rfl⟩, by simp [constMemberOption]⟩
  intro options v e h
  simp only [constMemberOption] at h
  simp at h
  exact ⟨_, _, _, h.symm⟩

theorem memberArgument_wf {Cfg α : Type} (name description : String)
    (format : String → Except BadValueE α) (assign : Cfg → α → Cfg) :
    WFarg (memberArgument name description format assign) := by
  intro options v e h
  simp only [memberArgument] at h
  cases hf : format v with
  | ok x => rw [hf] at h; exact absurd h (by simp)
  | error ex => rw [hf] at h; simp at h; exact ⟨_, _, _, h.symm⟩

theorem findOption_wf {Cfg : Type} (p : Parser Cfg) (hWF : WFparser p)
    (label : String) (o : OptionD Cfg) (h : findOption p label = some o) :
    WFopt o := by
  simp only [findOption, Option.map_eq_some'] at h
  obtain ⟨⟨i, o2⟩, hl, ho⟩ := h
  cases ho
  exact hWF.1 _ (lookupOpt_mem _ _ _ hl)

theorem sampleP_wf : WFparser sampleP := by
  constructor
  · intro x hx
    simp only [sampleP, List.mem_cons, List.not_mem_nil, or_false] at hx
    rcases hx with h | h | h
    · subst h
      exact memberOption_wf _ _ _ _ _
    · subst h
      exact constMemberOption_wf _ _ _
    · subst h
      exact constMemberOption_wf _ _ _
  · intro a ha
    simp only [sampleP, List.mem_cons, List.not_mem_nil, or_false] at ha
    subst ha
    exact memberArgument_wf _ _ _ _

/-! ### Scan-loop lemmas -/

theorem scanLoop_ne_tooFew {Cfg : Type} (p : Parser Cfg) (hWF : WFparser p) :
    ∀ (toks : List String) (options : Cfg) (nextPos : Nat),
      scanLoop p options toks nextPos ≠ .error .tooFewArguments := by
  suffices h : ∀ (n : Nat) (toks : List String), toks.length ≤ n →
      ∀ (options : Cfg) (nextPos : Nat),
        scanLoop p options toks nextPos ≠ .error .tooFewArguments by
    intro toks options nextPos
    exact h toks.length toks le_rfl options nextPos
  intro n
  induction n with
  | zero =>
    intro toks hlen options nextPos
    rw [List.eq_nil_of_length_eq_zero (Nat.le_zero.mp hlen)]
    simp [scanLoop]
  | succ n ih =>
    intro toks hlen options nextPos
    cases toks with
    | nil => simp [scanLoop]
    | cons tok rest =>
      simp only [List.length_cons, Nat.add_le_add_iff_right] at hlen
      simp only [scanLoop]
      split
      · cases hO : findOption p tok with
        | none => simp [hO]
        | some pOption =>
          have hwf : WFopt pOption := findOption_wf p hWF tok pOption hO
          dsimp only
          by_cases hNV : pOption.needsVal
          · rw [if_pos hNV]
            cases rest with
            | nil => simp
            | cons value rest2 =>
              dsimp only
              cases hA : pOption.appVal options value with
              | ok options2 =>
                dsimp only
                exact ih rest2 (by simp at hlen; omega) options2 nextPos
              | error e =>
                obtain ⟨m, l, w, he⟩ := hwf.1 _ _ _ hA
                subst he
                simp
          · rw [if_neg hNV]
            obtain ⟨options2, hA⟩ :=
              hwf.2.1 (Bool.not_eq_true _ ▸ hNV) options
            rw [hA]
            dsimp only
            exact ih rest hlen options2 nextPos
      · split
        · simp
        · cases hG : p.arguments.get? nextPos with
          | none => simp [hG]
          | some posArg =>
            have hwf : WFarg posArg := hWF.2 _ (List.get?_mem hG)
            dsimp only
            cases hA : posArg.appVal options tok with
            | ok options2 =>
              dsimp only
              exact ih rest hlen options2 (nextPos + 1)
            | error e =>
              obtain ⟨m, l, w, he⟩ := hwf _ _ _ hA
              subst he
              simp

theorem scanLoop_nextPos_le {Cfg : Type} (p : Parser Cfg) :
    ∀ (toks : List String) (options : Cfg) (nextPos : Nat)
      (options2 : Cfg) (nextPos2 : Nat),
      scanLoop p options toks nextPos = .ok (options2, nextPos2) →
      nextPos ≤ p.arguments.length → nextPos2 ≤ p.arguments.length := by
  suffices h : ∀ (n : Nat) (toks : List String), toks.length ≤ n →
      ∀ (options : Cfg) (nextPos : Nat) (options2 : Cfg) (nextPos2 : Nat),
        scanLoop p options toks nextPos = .ok (options2, nextPos2) →
        nextPos ≤ p.arguments.length → nextPos2 ≤ p.arguments.length by
    intro toks options nextPos options2 nextPos2
    exact h toks.length toks le_rfl options nextPos options2 nextPos2
  intro n
  induction n with
  | zero =>
    intro toks hlen options nextPos options2 nextPos2 hs hle
    rw [List.eq_nil_of_length_eq_zero (Nat.le_zero.mp hlen)] at hs
    simp [scanLoop] at hs
    omega
  | succ n ih =>
    intro toks hlen options nextPos options2 nextPos2 hs hle
    cases toks with
    | nil =>
      simp [scanLoop] at hs
      omega
    | cons tok rest =>
      simp only [List.length_cons, Nat.add_le_add_iff_right] at hlen
      simp only [scanLoop] at hs
      split at hs
      · cases hO : findOption p tok with
        | none => rw [hO] at hs; exact absurd hs (by simp)
        | some pOption =>
          rw [hO] at hs
          dsimp only at hs
          by_cases hNV : pOption.needsVal
          · rw [if_pos hNV] at hs
            cases rest with
            | nil => exact absurd hs (by simp)
            | cons value rest2 =>
              dsimp only at hs
              cases hA : pOption.appVal options value with
              | ok options3 =>
                rw [hA] at hs
                dsimp only at hs
                exact ih rest2 (by simp at hlen; omega) _ _ _ _ hs hle
              | error e =>
                rw [hA] at hs
                exact absurd hs (by simp)
          · rw [if_neg hNV] at hs
            cases hA : pOption.appNo options with
            | ok options3 =>
              rw [hA] at hs
              dsimp only at hs
              exact ih rest hlen _ _ _ _ hs hle
            | error e =>
              rw [hA] at hs
              exact absurd hs (by simp)
      · next hpos =>
        split at hs
        · exact absurd hs (by simp)
        · next hne =>
          cases hG : p.arguments.get? nextPos with
          | none => rw [hG] at hs; exact absurd hs (by simp)
          | some posArg =>
            rw [hG] at hs
            dsimp only at hs
            cases hA : posArg.appVal options tok with
            | ok options3 =>
              rw [hA] at hs
              dsimp only at hs
              exact ih rest hlen _ _ _ _ hs (by omega)
            | error e =>
              rw [hA] at hs
              exact absurd hs (by simp)

theorem scanLoop_congr {Cfg : Type} (p q : Parser Cfg)
    (hm : p.optionMap = q.optionMap) (ha : p.arguments = q.arguments) :
    ∀ (toks : List String) (options : Cfg) (nextPos : Nat),
      scanLoop p options toks nextPos = scanLoop q options toks nextPos := by
  suffices h : ∀ (n : Nat) (toks : List String), toks.length ≤ n →
      ∀ (options : Cfg) (nextPos : Nat),
        scanLoop p options toks nextPos = scanLoop q options toks nextPos by
    intro toks options nextPos
    exact h toks.length toks le_rfl options nextPos
  intro n
  induction n with
  | zero =>
    intro toks hlen options nextPos
    rw [List.eq_nil_of_length_eq_zero (Nat.le_zero.mp hlen)]
    rfl
  | succ n ih =>
    intro toks hlen options nextPos
    cases toks with
    | nil => rfl
    | cons tok rest =>
      simp only [List.length_cons, Nat.add_le_add_iff_right] at hlen
      have hfind : findOption p tok = findOption q tok := by
        simp [findOption, hm]
      simp only [scanLoop, hfind, ha]
      split
      · cases hO : findOption q tok with
        | none => rfl
        | some pOption =>
          dsimp only
          by_cases hNV : pOption.needsVal
          · simp only [if_pos hNV]
            cases rest with
            | nil => rfl
            | cons value rest2 =>
              dsimp only
              cases hA : pOption.appVal options value with
              | ok options2 =>
                dsimp only
                exact ih rest2 (by simp at hlen; omega) options2 nextPos
              | error e => rfl
          · simp only [if_neg hNV]
            cases hA : pOption.appNo options with
            | ok options2 =>
              dsimp only
              exact ih rest hlen options2 nextPos
            | error e => rfl
      · split
        · rfl
        · cases hG : q.arguments.get? nextPos with
          | none => rfl
          | some posArg =>
            dsimp only
            cases hA : posArg.appVal options tok with
            | ok options2 =>
              dsimp only
              exact ih rest hlen options2 (nextPos + 1)
            | error e => rfl

theorem get?_set_self {α : Type} (l : List α) (i : Nat) (a : α)
    (h : i < l.length) : (l.set i a).get? i = some a := by
  induction l generalizing i with
  | nil => simp at h
  | cons x xs ih =>
    cases i with
    | zero => simp
    | succ j => simpa using ih j (by simpa using h)

/-- Helper for the unreachability claim: looking up in a mapped option
map is mapping the lookup result. -/
theorem lookupOpt_map {Cfg : Type} (g : OptionD Cfg → OptionD Cfg)
    (m : List (String × Nat × OptionD Cfg)) (label : String) :
    lookupOpt (m.map (fun x => (x.1, x.2.1, g x.2.2))) label =
      (lookupOpt m label).map (fun e => (e.1, g e.2)) := by
  induction m with
  | nil => simp [lookupOpt]
  | cons x rest ih =>
    obtain ⟨l, i, o⟩ := x
    by_cases h : l = label <;> simp [lookupOpt, h, ih]

theorem findOption_mapNoValue {Cfg : Type}
    (f : Cfg → String → Except ParseError Cfg) (p : Parser Cfg)
    (label : String) :
    findOption (mapNoValueAppVal f p) label =
      (findOption p label).map (stripNoValueAppVal f) := by
  simp only [findOption, mapNoValueAppVal, lookupOpt_map, Option.map_map]
  rfl

theorem scanLoop_mapNoValue {Cfg : Type} (p : Parser Cfg)
    (f : Cfg → String → Except ParseError Cfg) :
    ∀ (toks : List String) (options : Cfg) (nextPos : Nat),
      scanLoop (mapNoValueAppVal f p) options toks nextPos =
        scanLoop p options toks nextPos := by
  suffices h : ∀ (n : Nat) (toks : List String), toks.length ≤ n →
      ∀ (options : Cfg) (nextPos : Nat),
        scanLoop (mapNoValueAppVal f p) options toks nextPos =
          scanLoop p options toks nextPos by
    intro toks options nextPos
    exact h toks.length toks le_rfl options nextPos
  intro n
  induction n with
  | zero =>
    intro toks hlen options nextPos
    rw [List.eq_nil_of_length_eq_zero (Nat.le_zero.mp hlen)]
    rfl
  | succ n ih =>
    intro toks hlen options nextPos
    cases toks with
    | nil => rfl
    | cons tok rest =>
      simp only [List.length_cons, Nat.add_le_add_iff_right] at hlen
      simp only [scanLoop, findOption_mapNoValue]
      split
      · cases hO : findOption p tok with
        | none => rfl
        | some pOption =>
          dsimp only [Option.map_some']
          by_cases hNV : pOption.needsVal
          · simp only [stripNoValueAppVal, if_pos hNV]
            cases rest with
            | nil => rfl
            | cons value rest2 =>
              dsimp only
              cases hA : pOption.appVal options value with
              | ok options2 =>
                dsimp only
                exact ih rest2 (by simp at hlen; omega) options2 nextPos
              | error e => rfl
          · simp only [stripNoValueAppVal, if_neg hNV]
            cases hA : pOption.appNo options with
            | ok options2 =>
              dsimp only
              exact ih rest hlen options2 nextPos
            | error e => rfl
      · dsimp only [mapNoValueAppVal]
        split
        · rfl
        · cases hG : p.arguments.get? nextPos with
          | none => rfl
          | some posArg =>
            dsimp only
            cases hA : posArg.appVal options tok with
            | ok options2 =>
              dsimp only
              exact ih rest hlen options2 (nextPos + 1)
            | error e => rfl

/-! ### Claims about the registry and the parsing engine -/

/-- C4: with a consistent registry and a valid label, registering twice
under the same label succeeds both times, leaves the option stored at
the same index both times, with the second option's content after the
second registration, and an unchanged option count. -/
theorem addOption_replaces {Cfg : Type} (p : Parser Cfg) (label : String)
    (o1 o2 : OptionD Cfg) (hL : isLabel label = true) (hC : MapConsistent p) :
    ∃ p1 p2 i,
      addOption p label o1 = .ok p1 ∧
      addOption p1 label o2 = .ok p2 ∧
      lookupOpt p1.optionMap label = some (i, o1) ∧
      lookupOpt p2.optionMap label = some (i, o2) ∧
      getOption p1 i = some o1 ∧
      getOption p2 i = some o2 ∧
      getOptionCount p2 = getOptionCount p1 := by
  cases hl : lookupOpt p.optionMap label with
  | none =>
    refine ⟨{ p with
                optionMap := storeOpt p.optionMap label p.optionList.length o1,
                optionList := p.optionList ++ [o1] },
            { p with
                optionMap :=
                  storeOpt (storeOpt p.optionMap label p.optionList.length o1)
                    label p.optionList.length o2,
                optionList := (p.optionList ++ [o1]).set p.optionList.length o2 },
            p.optionList.length, ?_, ?_,
            lookupOpt_storeOpt_self _ _ _ _, lookupOpt_storeOpt_self _ _ _ _,
            ?_, ?_, ?_⟩
    · simp [addOption, hL, hl]
    · simp [addOption, hL, lookupOpt_storeOpt_self]
    · simpa [getOption] using List.get?_concat_length p.optionList o1
    · simp only [getOption]
      exact get?_set_self _ _ _ (by simp)
    · simp [getOptionCount]
  | some e =>
    obtain ⟨i, oOld⟩ := e
    have hi : i < p.optionList.length := (hC _ (lookupOpt_mem _ _ _ hl)).1
    refine ⟨{ p with
                optionMap := storeOpt p.optionMap label i o1,
                optionList := p.optionList.set i o1 },
            { p with
                optionMap :=
                  storeOpt (storeOpt p.optionMap label i o1) label i o2,
                optionList := (p.optionList.set i o1).set i o2 },
            i, ?_, ?_,
            lookupOpt_storeOpt_self _ _ _ _, lookupOpt_storeOpt_self _ _ _ _,
            ?_, ?_, ?_⟩
    · simp [addOption, hL, hl]
    · simp [addOption, hL, lookupOpt_storeOpt_self]
    · simp only [getOption]
      exact get?_set_self _ _ _ hi
    · simp only [getOption]
      exact get?_set_self _ _ _ (by simpa using hi)
    · simp [getOptionCount]

/-- C4 witness: re-registering `-n` in an initially empty registry. -/
theorem addOption_replaces_witness :
    ∃ p1 p2 i,
      addOption (mkParser "w" : Parser SampleCfg) "-n" sampleOptN = .ok p1 ∧
      addOption p1 "-n" sampleOptN2 = .ok p2 ∧
      lookupOpt p1.optionMap "-n" = some (i, sampleOptN) ∧
      lookupOpt p2.optionMap "-n" = some (i, sampleOptN2) ∧
      getOption p1 i = some sampleOptN ∧
      getOption p2 i = some sampleOptN2 ∧
      getOptionCount p2 = getOptionCount p1 :=
  addOption_replaces (mkParser "w") "-n" sampleOptN sampleOptN2 (by decide)
    (by intro x hx; simp [mkParser] at hx)

/-- C5: a value-requiring matched option at the end of the input raises
`ValueNeeded` with its label; otherwise the following token is consumed
and fed to the option's with-value application, whose failure — for a
field-assigning option, a formatter failure — is a `BadValue` carrying
the label and the offending token. -/
theorem scanLoop_value_option {Cfg α : Type} (p : Parser Cfg)
    (options : Cfg) (tok : String) (rest : List String) (nextPos : Nat)
    (o : OptionD Cfg) (hL : isLabel tok = true)
    (hO : findOption p tok = some o) (hNV : o.needsVal = true) :
    (rest = [] →
      scanLoop p options (tok :: rest) nextPos = .error (.valueNeeded tok)) ∧
    (∀ value rest2, rest = value :: rest2 →
      scanLoop p options (tok :: rest) nextPos =
        match o.appVal options value with
        | .ok options2 => scanLoop p options2 rest2 nextPos
        | .error e => .error e) ∧
    (∀ (name description : String) (format : String → Except BadValueE α)
       (assign : Cfg → α → Cfg) (value : String) (ex : BadValueE),
      o = memberOption tok name description format assign →
      format value = .error ex →
      o.appVal options value = .error (.badValue ex.msg tok value)) := by
  refine ⟨?_, ?_, ?_⟩
  · intro hrest
    subst hrest
    simp [scanLoop, hL, hO, hNV]
  · intro value rest2 hrest
    subst hrest
    simp only [scanLoop, hL, if_true, hO, hNV]
  · intro name description format assign value ex ho hf
    subst ho
    simp [memberOption, hf]

/-- C5 witness: `-n` as the final token. -/
theorem scanLoop_value_option_witness :
    scanLoop sampleP sampleCfg0 ["-n"] 0 = .error (.valueNeeded "-n") :=
  (scanLoop_value_option (α := Int) sampleP sampleCfg0 "-n" [] 0 sampleOptN
    (by decide) rfl rfl).1 rfl

/-- C6: `parse` raises `TooFewArguments` exactly when `argc <= 0`, or
when the scan of the tokens after the program name completes without an
error but filled fewer positional slots than are registered. -/
theorem parse_tooFew_iff {Cfg : Type} (p : Parser Cfg) (options0 : Cfg)
    (argc : Int) (argv : List String) (hWF : WFparser p) :
    (parse p options0 argc argv).2 = .error .tooFewArguments ↔
      (argc ≤ 0 ∨
        ∃ options nextPos,
          scanLoop p options0 ((argv.take argc.toNat).drop 1) 0 =
            .ok (options, nextPos) ∧ nextPos < p.arguments.length) := by
  by_cases hc : argc ≤ 0
  · simp [parse, hc]
  · simp only [parse, if_neg hc]
    rw [scanLoop_congr
          { p with programName := (argv.take argc.toNat).headD "" } p
          rfl rfl ((argv.take argc.toNat).drop 1) options0 0]
    cases hS : scanLoop p options0 ((argv.take argc.toNat).drop 1) 0 with
    | error e =>
      dsimp only
      constructor
      · intro h
        have he : e = .tooFewArguments := by simpa using h
        subst he
        exact absurd hS (scanLoop_ne_tooFew p hWF _ _ _)
      · rintro (h | ⟨options, nextPos, hok, hlt⟩)
        · exact absurd h hc
        · exact absurd hok (by simp)
    | ok x =>
      obtain ⟨options, nextPos⟩ := x
      dsimp only
      by_cases hne : nextPos = p.arguments.length
      · rw [if_neg (not_not_intro hne)]
        dsimp only
        constructor
        · intro h
          exact absurd h (by simp)
        · rintro (h | ⟨options2, nextPos2, hok, hlt⟩)
          · exact absurd h hc
          · simp only [Except.ok.injEq, Prod.mk.injEq] at hok
            omega
      · rw [if_pos hne]
        dsimp only
        have hle : nextPos ≤ p.arguments.length :=
          scanLoop_nextPos_le p _ _ _ _ _ hS (Nat.zero_le _)
        constructor
        · intro _
          exact Or.inr ⟨options, nextPos, rfl, by omega⟩
        · intro _
          rfl

/-- C6 witness: one registered positional, no supplied value. -/
theorem parse_tooFew_iff_witness :
    (parse sampleP sampleCfg0 1 ["prog"]).2 = .error .tooFewArguments :=
  (parse_tooFew_iff sampleP sampleCfg0 1 ["prog"] sampleP_wf).mpr
    (Or.inr ⟨sampleCfg0, 0, rfl, by simp [sampleP]⟩)

/-- C7: with `argc <= 0`, `parse` fails with `TooFewArguments` and
leaves the parser — in particular its stored program name — untouched;
with `argc >= 1` the program name is set to the first token verbatim,
whatever the rest of the parse does. -/
theorem parse_programName {Cfg : Type} (p : Parser Cfg) (options0 : Cfg)
    (argc : Int) (argv : List String) :
    (argc ≤ 0 →
      parse p options0 argc argv = (p, .error .tooFewArguments)) ∧
    (1 ≤ argc → ∀ a rest, argv = a :: rest →
      (parse p options0 argc argv).1.programName = a) := by
  constructor
  · intro hc
    simp [parse, hc]
  · intro hc a rest hargv
    have hpos : ¬ argc ≤ 0 := by omega
    have h1 : (parse p options0 argc argv).1 =
        { p with programName := (argv.take argc.toNat).headD "" } := by
      simp only [parse, if_neg hpos]
      cases scanLoop { p with programName := (argv.take argc.toNat).headD "" }
          options0 ((argv.take argc.toNat).drop 1) 0 with
      | error e => rfl
      | ok x =>
        obtain ⟨options, nextPos⟩ := x
        dsimp only
        split <;> rfl
    rw [h1]
    subst hargv
    obtain ⟨k, hk⟩ : ∃ k, argc.toNat = k + 1 := ⟨argc.toNat - 1, by omega⟩
    simp [hk]

/-- C7 witness: the two cases at concrete inputs. -/
theorem parse_programName_witness :
    parse sampleP sampleCfg0 0 [] =
      (sampleP, .error .tooFewArguments) ∧
    (parse sampleP sampleCfg0 2 ["prog", "7"]).1.programName = "prog" :=
  ⟨(parse_programName sampleP sampleCfg0 0 []).1 (by decide),
   (parse_programName sampleP sampleCfg0 2 ["prog", "7"]).2 (by decide)
     "prog" ["7"] rfl⟩

/-- C9: when a value-requiring registered option is matched and another
token follows, that token is consumed as the option's value
unconditionally — here stated with the following token itself
label-shaped and registered. -/
theorem scanLoop_option_value_consumed {Cfg : Type} (p : Parser Cfg)
    (options : Cfg) (tok value : String) (rest : List String)
    (nextPos : Nat) (o o2 : OptionD Cfg) (hL : isLabel tok = true)
    (hO : findOption p tok = some o) (hNV : o.needsVal = true)
    (hvL : isLabel value = true) (hvO : findOption p value = some o2) :
    scanLoop p options (tok :: value :: rest) nextPos =
      match o.appVal options value with
      | .ok options2 => scanLoop p options2 rest nextPos
      | .error e => .error e := by
  simp only [scanLoop, hL, if_true, hO, hNV]

/-- C9 witness: `-n` takes the registered label `--flag` as its value
and hands it to the `int` converter. -/
theorem scanLoop_option_value_consumed_witness :
    scanLoop sampleP sampleCfg0 ["-n", "--flag"] 0 =
      .error (.badValue "invalid number" "-n" "--flag") := by
  rw [scanLoop_option_value_consumed sampleP sampleCfg0 "-n" "--flag" [] 0
    sampleOptN sampleOptFlag (by decide) rfl rfl (by decide) rfl]
  rfl

/-- C10: the parse result does not depend on the with-value application
of any option that does not need a value, so `parse` never invokes it
(the engine dispatches on `needsValue()`); and that application — the
member every no-value option inherits — is the
`BadValue("no value needed", label)` throw. -/
theorem parse_no_value_appVal_unreachable {Cfg : Type} (p : Parser Cfg)
    (options0 : Cfg) (argc : Int) (argv : List String)
    (f : Cfg → String → Except ParseError Cfg) :
    (parse (mapNoValueAppVal f p) options0 argc argv).2 =
      (parse p options0 argc argv).2 ∧
    (∀ (label description : String) (substConst : Cfg → Cfg)
       (options : Cfg) (value : String),
      (constMemberOption label description substConst).appVal options value =
        .error (.badValue "no value needed" "" label)) := by
  refine ⟨?_, fun label description substConst options value => rfl⟩
  by_cases hc : argc ≤ 0
  · simp [parse, hc]
  · simp only [parse, if_neg hc]
    dsimp only
    rw [scanLoop_congr
          (Parser.mk (mapNoValueAppVal f p).description
            ((argv.take argc.toNat).headD "")
            (mapNoValueAppVal f p).optionList (mapNoValueAppVal f p).optionMap
            (mapNoValueAppVal f p).arguments)
          (mapNoValueAppVal f p) rfl rfl ((argv.take argc.toNat).drop 1)
          options0 0,
        scanLoop_mapNoValue p f,
        ← scanLoop_congr
            { p with programName := (argv.take argc.toNat).headD "" } p
            rfl rfl ((argv.take argc.toNat).drop 1) options0 0]
    cases scanLoop { p with programName := (argv.take argc.toNat).headD "" }
        options0 ((argv.take argc.toNat).drop 1) 0 with
    | error e => rfl
    | ok x =>
      obtain ⟨options, nextPos⟩ := x
      dsimp only [mapNoValueAppVal]
      split <;> rfl

end Optparse
